import Mathlib

/-!
Verification of `btgym/datafeed/synthetic/stochastic.py`.

Shallow embedding of the stochastic synthetic-data module and proofs about it.

Modelling conventions:
* Python floats are idealised as exact numbers: the parameter-sampling
  functions (which use only `+`, `*`, comparisons) are embedded over `ℚ` so
  that they are fully executable and decidable; the trajectory generators
  (which use `exp` and `sqrt`) are embedded over `ℝ`.
* The process-wide numpy random source is an explicit stream argument:
  `np.random.normal(loc, scale)` is modelled as `loc + scale * z` where `z`
  is the next value of a stream of standard-normal draws, and
  `np.random.uniform(low, high)` as `low + u * (high - low)` where `u` is the
  next value of a stream of draws from `[0, 1)`.  Universal quantification
  over the streams models "for every state of the random source".
* A Python `assert` failure (`AssertionError`) is modelled as `Except.error`;
  the sampler embeddings additionally return the number of random draws that
  were consumed by the time the function returned, so that eager-validation
  claims can be stated.
* `np.around(x, decimals=k)` is modelled as `roundDec k`, rounding
  `x * 10^k` to the nearest integer; numpy breaks exact ties to even while
  `round` breaks them upward, and every concrete instance below avoids ties,
  so the difference is immaterial to the statements proved here.
-/

namespace Stochastic

instance {ε α : Type} [DecidableEq ε] [DecidableEq α] : DecidableEq (Except ε α)
  | .error a, .error b =>
    if h : a = b then .isTrue (by rw [h]) else .isFalse (by intro hc; cases hc; exact h rfl)
  | .error _, .ok _ => .isFalse (by intro hc; cases hc)
  | .ok _, .error _ => .isFalse (by intro hc; cases hc)
  | .ok a, .ok b =>
    if h : a = b then .isTrue (by rw [h]) else .isFalse (by intro hc; cases hc; exact h rfl)

/-- A parameter specification as accepted by the `*_parameters_fn` duck-typed
interface: either a bare scalar (Python `int`/`float`/`np.float64`) or an
iterable, which the source converts with `list(...)`. Rational-valued version
used for the uniform samplers. -/
inductive PSpec where
  | scalar (v : ℚ)
  | interval (xs : List ℚ)
deriving DecidableEq

/-- Scalar specs are replaced by the degenerate interval `[v, v]`
(lines `delta = [delta, delta]` etc. of the source); iterables become lists. -/
def PSpec.normalize : PSpec → List ℚ
  | .scalar v => [v, v]
  | .interval xs => xs

/-- Embedding of `np.random.uniform(low=a, high=b)` given the next unit-interval draw `u`. -/
def uniformQ (a b u : ℚ) : ℚ := a + u * (b - a)

/-- The assert condition `len(xs) == 2 and 0 <= xs[0] <= xs[-1]`
(non-negative ordered interval). -/
def okNonneg (xs : List ℚ) : Prop :=
  xs.length = 2 ∧ 0 ≤ xs.getD 0 0 ∧ xs.getD 0 0 ≤ xs.getD 1 0

/-- The assert condition `len(xs) == 2 and 0 < xs[0] <= xs[-1]`
(positive ordered interval, used for the OU mean-reversion rate). -/
def okPos (xs : List ℚ) : Prop :=
  xs.length = 2 ∧ 0 < xs.getD 0 0 ∧ xs.getD 0 0 ≤ xs.getD 1 0

/-- The assert condition `len(xs) == 2 and xs[0] <= xs[-1]`
(ordered interval, any sign; used for OU `mu` and `x0`). -/
def okOrd (xs : List ℚ) : Prop :=
  xs.length = 2 ∧ xs.getD 0 0 ≤ xs.getD 1 0

instance (xs : List ℚ) : Decidable (okNonneg xs) := by unfold okNonneg; infer_instance
instance (xs : List ℚ) : Decidable (okPos xs) := by unfold okPos; infer_instance
instance (xs : List ℚ) : Decidable (okOrd xs) := by unfold okOrd; infer_instance

/-- Embedding of `weiner_process_uniform_parameters_fn(delta, x0, dt=1)`.
Returns the sampled `(delta, x0)` pair (or the failed assert's subject) and
the number of uniform draws consumed from the stream `u` at the point of
return.  Both asserts precede both draws in the source. -/
def weiner_process_uniform_parameters_fn (delta x0 : PSpec) (u : ℕ → ℚ) :
    Except String (ℚ × ℚ) × ℕ :=
  let dd := delta.normalize
  let xx := x0.normalize
  if okNonneg dd then
    if okNonneg xx then
      (Except.ok (uniformQ (dd.getD 0 0) (dd.getD 1 0) (u 0),
                  uniformQ (xx.getD 0 0) (xx.getD 1 0) (u 1)), 2)
    else (Except.error "x0", 0)
  else (Except.error "delta", 0)

/-- Embedding of `ornshtein_uhlenbeck_uniform_parameters_fn(mu, l, sigma, x0=None, dt=1)`.
The three asserts on `l`, `sigma`, `mu` precede all draws; the draws for
`l`, `sigma`, `mu` (stream positions 0, 1, 2) precede the branch on `x0`, so
a malformed `x0` fails only after three draws have been consumed.  Result
tuple order: `(l, sigma, mu, x0)`. -/
def ornshtein_uhlenbeck_uniform_parameters_fn (mu l sigma : PSpec) (x0 : Option PSpec)
    (u : ℕ → ℚ) : Except String (ℚ × ℚ × ℚ × ℚ) × ℕ :=
  let ll := l.normalize
  let ss := sigma.normalize
  let mm := mu.normalize
  if okPos ll then
    if okNonneg ss then
      if okOrd mm then
        let l_value := uniformQ (ll.getD 0 0) (ll.getD 1 0) (u 0)
        let sigma_value := uniformQ (ss.getD 0 0) (ss.getD 1 0) (u 1)
        let mu_value := uniformQ (mm.getD 0 0) (mm.getD 1 0) (u 2)
        match x0 with
        | none => (Except.ok (l_value, sigma_value, mu_value, mu_value), 3)
        | some spec =>
          let xx := spec.normalize
          if okOrd xx then
            (Except.ok (l_value, sigma_value, mu_value,
                        uniformQ (xx.getD 0 0) (xx.getD 1 0) (u 3)), 4)
          else (Except.error "x0", 3)
      else (Except.error "mu", 0)
    else (Except.error "sigma", 0)
  else (Except.error "l", 0)

/-- Real-valued parameter specification, used for the log-uniform sampler
(whose `log_uniform` helper involves `exp`/`log`). -/
inductive RSpec where
  | scalar (v : ℝ)
  | interval (xs : List ℝ)

/-- Scalar-to-degenerate-interval normalisation, real-valued version. -/
def RSpec.normalize : RSpec → List ℝ
  | .scalar v => [v, v]
  | .interval xs => xs

/-- Embedding of `np.random.uniform(low=a, high=b)`, real-valued version. -/
def uniformR (a b u : ℝ) : ℝ := a + u * (b - a)

/-- Real-valued version of `okNonneg`. -/
def okNonnegR (xs : List ℝ) : Prop :=
  xs.length = 2 ∧ 0 ≤ xs.getD 0 0 ∧ xs.getD 0 0 ≤ xs.getD 1 0

/-- Real-valued version of `okPos`. -/
def okPosR (xs : List ℝ) : Prop :=
  xs.length = 2 ∧ 0 < xs.getD 0 0 ∧ xs.getD 0 0 ≤ xs.getD 1 0

/-- Real-valued version of `okOrd`. -/
def okOrdR (xs : List ℝ) : Prop :=
  xs.length = 2 ∧ xs.getD 0 0 ≤ xs.getD 1 0

noncomputable instance (xs : List ℝ) : Decidable (okNonnegR xs) := Classical.dec _
noncomputable instance (xs : List ℝ) : Decidable (okPosR xs) := Classical.dec _
noncomputable instance (xs : List ℝ) : Decidable (okOrdR xs) := Classical.dec _

/-- Modelled from the spec: `log_uniform` lives in `btgym.datafeed.synthetic.utils`,
which is not among the sources; per the spec it draws uniformly over
`[log low, log high]` and exponentiates the result, consuming one draw from
the random source. -/
noncomputable def log_uniform (xs : List ℝ) (u : ℝ) : ℝ :=
  Real.exp (Real.log (xs.getD 0 0) + u * (Real.log (xs.getD 1 0) - Real.log (xs.getD 0 0)))

/-- Embedding of `ornshtein_uhlenbeck_log_uniform_parameters_fn(mu, l, sigma, x0=None, dt=1)`:
identical to the uniform variant except that `l` is sampled by `log_uniform(l, 1)`.
The draw bookkeeping is the same: `l`, `sigma`, `mu` consume stream positions
0, 1, 2 before the `x0` branch is reached. -/
noncomputable def ornshtein_uhlenbeck_log_uniform_parameters_fn (mu l sigma : RSpec)
    (x0 : Option RSpec) (u : ℕ → ℝ) : Except String (ℝ × ℝ × ℝ × ℝ) × ℕ :=
  let ll := l.normalize
  let ss := sigma.normalize
  let mm := mu.normalize
  if okPosR ll then
    if okNonnegR ss then
      if okOrdR mm then
        let l_value := log_uniform ll (u 0)
        let sigma_value := uniformR (ss.getD 0 0) (ss.getD 1 0) (u 1)
        let mu_value := uniformR (mm.getD 0 0) (mm.getD 1 0) (u 2)
        match x0 with
        | none => (Except.ok (l_value, sigma_value, mu_value, mu_value), 3)
        | some spec =>
          let xx := spec.normalize
          if okOrdR xx then
            (Except.ok (l_value, sigma_value, mu_value,
                        uniformR (xx.getD 0 0) (xx.getD 1 0) (u 3)), 4)
          else (Except.error "x0", 3)
      else (Except.error "mu", 0)
    else (Except.error "sigma", 0)
  else (Except.error "l", 0)

/-- A parameter spec containing a negative bound (scalar case: the scalar is
negative; interval case: some listed bound is negative). -/
def PSpec.hasNegBound : PSpec → Prop
  | .scalar v => v < 0
  | .interval xs => ∃ y ∈ xs, y < 0

/-- One step of the `ornshtein_uhlenbeck_process_fn` recurrence (loop body,
line `x[i] = x[i-1]*np.exp(-l*dt) + mu*(1-np.exp(-l*dt)) + sigma*((1-np.exp(-2*l*dt))/(2*l))**.5*np.random.normal(0,1)`),
with `z` the standard-normal draw. -/
noncomputable def ouStep (mu l sigma dt x z : ℝ) : ℝ :=
  x * Real.exp (-l * dt) + mu * (1 - Real.exp (-l * dt)) +
    sigma * Real.sqrt ((1 - Real.exp (-2 * l * dt)) / (2 * l)) * z

/-- The OU trajectory values: index 0 is the seed `x0`; the entry at `i + 1`
applies the loop body to the entry at `i`, consuming the standard-normal draw
`ns i`. -/
noncomputable def ouTraj (mu l sigma x0 dt : ℝ) (ns : ℕ → ℝ) : ℕ → ℝ
  | 0 => x0
  | i + 1 => ouStep mu l sigma dt (ouTraj mu l sigma x0 dt ns i) (ns i)

/-- Embedding of `ornshtein_uhlenbeck_process_fn(num_points, mu, l, sigma, x0=0, dt=1)`.
The source allocates `x = np.zeros(num_points)` and then writes `x[0] = x0`:
for `num_points = 0` that write is out of bounds and raises `IndexError`,
modelled as `none`; otherwise the filled trajectory is returned. -/
noncomputable def ornshtein_uhlenbeck_process_fn (num_points : ℕ) (mu l sigma x0 dt : ℝ)
    (ns : ℕ → ℝ) : Option (List ℝ) :=
  if num_points = 0 then none
  else some ((List.range num_points).map (ouTraj mu l sigma x0 dt ns))

/-- The scalar parameters of `coupled_wave_pair_generator_fn`
(`num_points` is passed separately). -/
structure CWParams where
  drift_sigma : ℝ
  ou_sigma : ℝ
  ou_lambda : ℝ
  ou_mu : ℝ
  spread_sigma_1 : ℝ
  spread_sigma_2 : ℝ
  spread_mean_1 : ℝ
  spread_mean_2 : ℝ
  bias : ℝ
  keep_decimals : ℕ

/-- The state of the numpy random source, split into its standard-normal draw
stream and its unit-interval (`[0, 1)`) uniform draw stream.  Inside one loop
iteration `i` of the coupled-wave generator the normal draws used are
`normal (6*i) .. normal (6*i+5)` (coupling noise, shared drift, two draws per
`h` spread, twice) and the uniform draws are `unif (2*i)`, `unif (2*i+1)`
(the two `last` values). -/
structure RandState where
  normal : ℕ → ℝ
  unif : ℕ → ℝ

/-- The per-index values of the eight history lists
`x_mid1, x_high1, x_low1, x_last1, x_mid2, x_high2, x_low2, x_last2`. -/
structure CWState where
  mid1 : ℝ
  high1 : ℝ
  low1 : ℝ
  last1 : ℝ
  mid2 : ℝ
  high2 : ℝ
  low2 : ℝ
  last2 : ℝ

/-- The seed values placed at history index 0:
`x_mid1 = x_low1 = x_high1 = [bias]`, `x_last1 = [bias + ou_mu/2]`, and the
same for series 2 with `x_last2 = [bias - ou_mu/2]`. -/
noncomputable def cwSeed (p : CWParams) : CWState where
  mid1 := p.bias
  high1 := p.bias
  low1 := p.bias
  last1 := p.bias + p.ou_mu / 2
  mid2 := p.bias
  high2 := p.bias
  low2 := p.bias
  last2 := p.bias - p.ou_mu / 2

/-- The `delta_ou` lambda of the source:
`(ou_mu - s)*(1 - np.exp(-l)) + sigma*((1 - np.exp(-2*l))/(2*l))**.5 * np.random.normal(0,1)`,
with `z` the standard-normal draw.  (In the source `l = ou_lambda` and
`sigma = ou_sigma` at the single call site.) -/
noncomputable def delta_ou (p : CWParams) (s z : ℝ) : ℝ :=
  (p.ou_mu - s) * (1 - Real.exp (-p.ou_lambda)) +
    p.ou_sigma * Real.sqrt ((1 - Real.exp (-2 * p.ou_lambda)) / (2 * p.ou_lambda)) * z

/-- The `h` lambda of the source:
`np.clip((np.random.normal(mean1, sigma1)**2 + np.random.normal(mean2, sigma2)**2)**.5, mean1, None)`,
with `z1`, `z2` the two standard-normal draws; `np.clip(v, mean1, None)` is
`max v mean1`. -/
noncomputable def hSpread (p : CWParams) (z1 z2 : ℝ) : ℝ :=
  max (Real.sqrt ((p.spread_mean_1 + p.spread_sigma_1 * z1) ^ 2 +
      (p.spread_mean_2 + p.spread_sigma_2 * z2) ^ 2)) p.spread_mean_1

/-- One iteration of the generation loop (`for i in range(num_points)`),
appending to the eight history lists; `st` holds the values at history index
`i` and the result holds those at history index `i + 1`. -/
noncomputable def cwStep (p : CWParams) (r : RandState) (i : ℕ) (st : CWState) : CWState :=
  let x_last_ou := st.last1 - st.last2
  let d_s := delta_ou p x_last_ou (r.normal (6 * i))
  let drift1 := p.drift_sigma * r.normal (6 * i + 1)
  let mid1 := st.last1 * (1 + drift1) + d_s / 2
  let mid2 := st.last2 * (1 + drift1) - d_s / 2
  let h1_val := hSpread p (r.normal (6 * i + 2)) (r.normal (6 * i + 3))
  let h2_val := hSpread p (r.normal (6 * i + 4)) (r.normal (6 * i + 5))
  let low1 := mid1 - h1_val / 2
  let high1 := mid1 + h1_val / 2
  let last1 := low1 + r.unif (2 * i) * (high1 - low1)
  let low2 := mid2 - h2_val / 2
  let high2 := mid2 + h2_val / 2
  let last2 := low2 + r.unif (2 * i + 1) * (high2 - low2)
  ⟨mid1, high1, low1, last1, mid2, high2, low2, last2⟩

/-- The history values at index `i` (0 = seed, `i + 1` = result of loop
iteration `i`). -/
noncomputable def cwTraj (p : CWParams) (r : RandState) : ℕ → CWState
  | 0 => cwSeed p
  | i + 1 => cwStep p r i (cwTraj p r i)

/-- Embedding of `np.around(x, decimals=k)`: round `x * 10^k` to the nearest integer and
scale back.  (numpy breaks exact ties to even, `round` upward; no statement
below depends on the tie-breaking rule.) -/
noncomputable def roundDec (k : ℕ) (x : ℝ) : ℝ := (round (x * 10 ^ k) : ℤ) / 10 ^ k

/-- Embedding of `coupled_wave_pair_generator_fn(...)`: the stacked array
`np.asarray([[x_mid1, x_high1, x_low1, x_last1], [x_mid2, x_high2, x_low2, x_last2]])[:, :, 1:]`,
rounded with `np.around(x, decimals=keep_decimals)`.  The `[:, :, 1:]` slice
drops history index 0, so output time index `t` is history index `t + 1`. -/
noncomputable def coupled_wave_pair_generator_fn (p : CWParams) (r : RandState)
    (num_points : ℕ) : List (List (List ℝ)) :=
  [[(List.range num_points).map (fun t => roundDec p.keep_decimals (cwTraj p r (t + 1)).mid1),
    (List.range num_points).map (fun t => roundDec p.keep_decimals (cwTraj p r (t + 1)).high1),
    (List.range num_points).map (fun t => roundDec p.keep_decimals (cwTraj p r (t + 1)).low1),
    (List.range num_points).map (fun t => roundDec p.keep_decimals (cwTraj p r (t + 1)).last1)],
   [(List.range num_points).map (fun t => roundDec p.keep_decimals (cwTraj p r (t + 1)).mid2),
    (List.range num_points).map (fun t => roundDec p.keep_decimals (cwTraj p r (t + 1)).high2),
    (List.range num_points).map (fun t => roundDec p.keep_decimals (cwTraj p r (t + 1)).low2),
    (List.range num_points).map (fun t => roundDec p.keep_decimals (cwTraj p r (t + 1)).last2)]]

lemma uniformQ_mem {a b u : ℚ} (hab : a ≤ b) (h0 : 0 ≤ u) (h1 : u < 1) :
    a ≤ uniformQ a b u ∧ uniformQ a b u ≤ b := by
  unfold uniformQ
  constructor <;> nlinarith

lemma uniformQ_self (a u : ℚ) : uniformQ a a u = a := by
  unfold uniformQ; ring

example :
    ornshtein_uhlenbeck_uniform_parameters_fn (.scalar 0) (.scalar 1) (.scalar 1)
      (some (.interval [5, 2])) (fun _ => 0) = (Except.error "x0", 3) := rfl

example :
    weiner_process_uniform_parameters_fn (.scalar 1) (.interval [-1, 5]) (fun _ => 0)
      = (Except.error "x0", 0) := rfl

example :
    ornshtein_uhlenbeck_uniform_parameters_fn (.scalar 3) (.scalar 1) (.scalar 2)
      (some (.scalar 5)) (fun _ => 0) = (Except.ok (1, 2, 3, 5), 4) := by
  norm_num [ornshtein_uhlenbeck_uniform_parameters_fn, uniformQ, okPos, okNonneg, okOrd,
    PSpec.normalize]

/-- C10: `weiner_process_uniform_parameters_fn` rejects any `x0` specification
containing a negative bound: the assert `len(x0) == 2 and 0 <= x0[0] <= x0[-1]`
(a scalar first becoming the degenerate interval `[a, a]`) fails, so the call
errors out instead of returning sampled parameters. -/
theorem C10_weiner_rejects_negative_x0 (delta x0 : PSpec) (u : ℕ → ℚ)
    (h : x0.hasNegBound) :
    ∃ e, (weiner_process_uniform_parameters_fn delta x0 u).1 = Except.error e := by
  have hx : ¬ okNonneg x0.normalize := by
    intro hok
    obtain ⟨hlen, h0, hord⟩ := hok
    cases x0 with
    | scalar v =>
      simp only [PSpec.hasNegBound] at h
      simp only [PSpec.normalize, List.getD_cons_zero] at h0
      exact absurd h0 (not_le.mpr h)
    | interval xs =>
      obtain ⟨y, hy, hyneg⟩ := h
      simp only [PSpec.normalize] at hlen h0 hord
      obtain ⟨a, b, rfl⟩ := List.length_eq_two.mp hlen
      simp only [List.getD_cons_zero, List.getD_cons_succ] at h0 hord
      simp only [List.mem_cons, List.not_mem_nil, or_false] at hy
      rcases hy with rfl | rfl <;> linarith
  simp only [weiner_process_uniform_parameters_fn]
  by_cases hd : okNonneg delta.normalize
  · exact ⟨"x0", by rw [if_pos hd, if_neg hx]⟩
  · exact ⟨"delta", by rw [if_neg hd]⟩

theorem C10_weiner_rejects_negative_x0_witness :
    PSpec.hasNegBound (.interval [-1, 5]) ∧
    ∃ e, (weiner_process_uniform_parameters_fn (.scalar 1) (.interval [-1, 5])
        (fun _ => 0)).1 = Except.error e :=
  ⟨⟨-1, by simp, by norm_num⟩,
   C10_weiner_rejects_negative_x0 (.scalar 1) (.interval [-1, 5]) (fun _ => 0)
     ⟨-1, by simp, by norm_num⟩⟩

/-- C7 counterexample: with valid `l`, `sigma`, `mu` specs and the reversed
interval `[5, 2]` as `x0`, `ornshtein_uhlenbeck_uniform_parameters_fn` does
fail — but only after 3 random draws have been consumed, not before any draw
as the claim states. -/
theorem C7_counterexample_x0_fails_after_draws :
    ornshtein_uhlenbeck_uniform_parameters_fn (.scalar 0) (.scalar 1) (.scalar 1)
        (some (.interval [5, 2])) (fun _ => 0) = (Except.error "x0", 3) ∧ (3 : ℕ) ≠ 0 :=
  ⟨rfl, by norm_num⟩

/-- C7 amended: malformed `delta`/`x0` specs of the Wiener sampler and
malformed `l`, `sigma`, `mu` specs of both OU samplers are
rejected before any random draw is consumed; but a malformed `x0` given to
`ornshtein_uhlenbeck_uniform_parameters_fn` or
`ornshtein_uhlenbeck_log_uniform_parameters_fn` is rejected only after the
three draws for `l`, `sigma`, `mu` have been consumed. -/
theorem C7_amended_x0_checked_after_draws :
    (∀ (delta x0 : PSpec) (u : ℕ → ℚ), ¬ okNonneg delta.normalize →
      weiner_process_uniform_parameters_fn delta x0 u = (Except.error "delta", 0)) ∧
    (∀ (delta x0 : PSpec) (u : ℕ → ℚ), okNonneg delta.normalize →
      ¬ okNonneg x0.normalize →
      weiner_process_uniform_parameters_fn delta x0 u = (Except.error "x0", 0)) ∧
    (∀ (mu l sigma : PSpec) (x0 : Option PSpec) (u : ℕ → ℚ), ¬ okPos l.normalize →
      ornshtein_uhlenbeck_uniform_parameters_fn mu l sigma x0 u = (Except.error "l", 0)) ∧
    (∀ (mu l sigma : PSpec) (x0 : Option PSpec) (u : ℕ → ℚ), okPos l.normalize →
      ¬ okNonneg sigma.normalize →
      ornshtein_uhlenbeck_uniform_parameters_fn mu l sigma x0 u = (Except.error "sigma", 0)) ∧
    (∀ (mu l sigma : PSpec) (x0 : Option PSpec) (u : ℕ → ℚ), okPos l.normalize →
      okNonneg sigma.normalize → ¬ okOrd mu.normalize →
      ornshtein_uhlenbeck_uniform_parameters_fn mu l sigma x0 u = (Except.error "mu", 0)) ∧
    (∀ (mu l sigma x0 : PSpec) (u : ℕ → ℚ), okPos l.normalize →
      okNonneg sigma.normalize → okOrd mu.normalize → ¬ okOrd x0.normalize →
      ornshtein_uhlenbeck_uniform_parameters_fn mu l sigma (some x0) u
        = (Except.error "x0", 3)) ∧
    (∀ (mu l sigma : RSpec) (x0 : Option RSpec) (u : ℕ → ℝ), ¬ okPosR l.normalize →
      ornshtein_uhlenbeck_log_uniform_parameters_fn mu l sigma x0 u
        = (Except.error "l", 0)) ∧
    (∀ (mu l sigma : RSpec) (x0 : Option RSpec) (u : ℕ → ℝ), okPosR l.normalize →
      ¬ okNonnegR sigma.normalize →
      ornshtein_uhlenbeck_log_uniform_parameters_fn mu l sigma x0 u
        = (Except.error "sigma", 0)) ∧
    (∀ (mu l sigma : RSpec) (x0 : Option RSpec) (u : ℕ → ℝ), okPosR l.normalize →
      okNonnegR sigma.normalize → ¬ okOrdR mu.normalize →
      ornshtein_uhlenbeck_log_uniform_parameters_fn mu l sigma x0 u
        = (Except.error "mu", 0)) ∧
    (∀ (mu l sigma x0 : RSpec) (u : ℕ → ℝ), okPosR l.normalize →
      okNonnegR sigma.normalize → okOrdR mu.normalize → ¬ okOrdR x0.normalize →
      ornshtein_uhlenbeck_log_uniform_parameters_fn mu l sigma (some x0) u
        = (Except.error "x0", 3)) := by
  refine ⟨?_, ?_, ?_, ?_, ?_, ?_, ?_, ?_, ?_, ?_⟩
  · intro delta x0 u hd
    simp only [weiner_process_uniform_parameters_fn]
    rw [if_neg hd]
  · intro delta x0 u hd hx
    simp only [weiner_process_uniform_parameters_fn]
    rw [if_pos hd, if_neg hx]
  · intro mu l sigma x0 u hl
    simp only [ornshtein_uhlenbeck_uniform_parameters_fn]
    rw [if_neg hl]
  · intro mu l sigma x0 u hl hs
    simp only [ornshtein_uhlenbeck_uniform_parameters_fn]
    rw [if_pos hl, if_neg hs]
  · intro mu l sigma x0 u hl hs hm
    simp only [ornshtein_uhlenbeck_uniform_parameters_fn]
    rw [if_pos hl, if_pos hs, if_neg hm]
  · intro mu l sigma x0 u hl hs hm hx
    simp only [ornshtein_uhlenbeck_uniform_parameters_fn]
    rw [if_pos hl, if_pos hs, if_pos hm, if_neg hx]
  · intro mu l sigma x0 u hl
    simp only [ornshtein_uhlenbeck_log_uniform_parameters_fn]
    rw [if_neg hl]
  · intro mu l sigma x0 u hl hs
    simp only [ornshtein_uhlenbeck_log_uniform_parameters_fn]
    rw [if_pos hl, if_neg hs]
  · intro mu l sigma x0 u hl hs hm
    simp only [ornshtein_uhlenbeck_log_uniform_parameters_fn]
    rw [if_pos hl, if_pos hs, if_neg hm]
  · intro mu l sigma x0 u hl hs hm hx
    simp only [ornshtein_uhlenbeck_log_uniform_parameters_fn]
    rw [if_pos hl, if_pos hs, if_pos hm, if_neg hx]

theorem C7_amended_x0_checked_after_draws_witness :
    okPos (PSpec.normalize (.scalar 1)) ∧ okNonneg (PSpec.normalize (.scalar 1)) ∧
    okOrd (PSpec.normalize (.scalar 0)) ∧ ¬ okOrd (PSpec.normalize (.interval [5, 2])) ∧
    ornshtein_uhlenbeck_uniform_parameters_fn (.scalar 0) (.scalar 1) (.scalar 1)
        (some (.interval [5, 2])) (fun _ => 0) = (Except.error "x0", 3) :=
  ⟨by norm_num [okPos, PSpec.normalize], by norm_num [okNonneg, PSpec.normalize],
   by norm_num [okOrd, PSpec.normalize], by norm_num [okOrd, PSpec.normalize],
   C7_amended_x0_checked_after_draws.2.2.2.2.2.1 (.scalar 0) (.scalar 1) (.scalar 1)
     (.interval [5, 2]) (fun _ => 0)
     (by norm_num [okPos, PSpec.normalize]) (by norm_num [okNonneg, PSpec.normalize])
     (by norm_num [okOrd, PSpec.normalize]) (by norm_num [okOrd, PSpec.normalize])⟩

/-- C8: for every valid ordered interval `[a, b]` the uniform parameter
samplers return values inside `[a, b]` (given draws from `[0, 1)`), and for
every degenerate scalar specification the sampled value is exactly that
scalar. -/
theorem C8_uniform_sampler_bounds :
    (∀ (a b c d : ℚ) (u : ℕ → ℚ), 0 ≤ a → a ≤ b → 0 ≤ c → c ≤ d →
      (∀ n, 0 ≤ u n ∧ u n < 1) →
      ∃ dv xv,
        weiner_process_uniform_parameters_fn (.interval [a, b]) (.interval [c, d]) u
          = (Except.ok (dv, xv), 2) ∧ a ≤ dv ∧ dv ≤ b ∧ c ≤ xv ∧ xv ≤ d) ∧
    (∀ (a c : ℚ) (u : ℕ → ℚ), 0 ≤ a → 0 ≤ c →
      weiner_process_uniform_parameters_fn (.scalar a) (.scalar c) u
        = (Except.ok (a, c), 2)) ∧
    (∀ (la lb sa sb ma mb xa xb : ℚ) (u : ℕ → ℚ), 0 < la → la ≤ lb → 0 ≤ sa → sa ≤ sb →
      ma ≤ mb → xa ≤ xb → (∀ n, 0 ≤ u n ∧ u n < 1) →
      ∃ lv sv mv xv,
        ornshtein_uhlenbeck_uniform_parameters_fn (.interval [ma, mb]) (.interval [la, lb])
            (.interval [sa, sb]) (some (.interval [xa, xb])) u
          = (Except.ok (lv, sv, mv, xv), 4) ∧
        la ≤ lv ∧ lv ≤ lb ∧ sa ≤ sv ∧ sv ≤ sb ∧ ma ≤ mv ∧ mv ≤ mb ∧ xa ≤ xv ∧ xv ≤ xb) ∧
    (∀ (lc sc mc xc : ℚ) (u : ℕ → ℚ), 0 < lc → 0 ≤ sc →
      ornshtein_uhlenbeck_uniform_parameters_fn (.scalar mc) (.scalar lc) (.scalar sc)
          (some (.scalar xc)) u
        = (Except.ok (lc, sc, mc, xc), 4)) := by
  refine ⟨?_, ?_, ?_, ?_⟩
  · intro a b c d u ha hab hc hcd hu
    have hd : okNonneg (PSpec.normalize (.interval [a, b])) := by
      refine ⟨rfl, ?_, ?_⟩ <;> simpa [PSpec.normalize]
    have hx : okNonneg (PSpec.normalize (.interval [c, d])) := by
      refine ⟨rfl, ?_, ?_⟩ <;> simpa [PSpec.normalize]
    refine ⟨uniformQ a b (u 0), uniformQ c d (u 1), ?_, (uniformQ_mem hab (hu 0).1 (hu 0).2).1,
      (uniformQ_mem hab (hu 0).1 (hu 0).2).2, (uniformQ_mem hcd (hu 1).1 (hu 1).2).1,
      (uniformQ_mem hcd (hu 1).1 (hu 1).2).2⟩
    simp only [weiner_process_uniform_parameters_fn]
    rw [if_pos hd, if_pos hx]
    rfl
  · intro a c u ha hc
    have hd : okNonneg (PSpec.normalize (.scalar a)) :=
      ⟨rfl, by simpa [PSpec.normalize] using ha, by simp [PSpec.normalize]⟩
    have hx : okNonneg (PSpec.normalize (.scalar c)) :=
      ⟨rfl, by simpa [PSpec.normalize] using hc, by simp [PSpec.normalize]⟩
    simp only [weiner_process_uniform_parameters_fn]
    rw [if_pos hd, if_pos hx]
    simp [PSpec.normalize, uniformQ_self]
  · intro la lb sa sb ma mb xa xb u hla hlab hsa hsab hmab hxab hu
    have hl : okPos (PSpec.normalize (.interval [la, lb])) := by
      refine ⟨rfl, ?_, ?_⟩ <;> simpa [PSpec.normalize]
    have hs : okNonneg (PSpec.normalize (.interval [sa, sb])) := by
      refine ⟨rfl, ?_, ?_⟩ <;> simpa [PSpec.normalize]
    have hm : okOrd (PSpec.normalize (.interval [ma, mb])) :=
      ⟨rfl, by simpa [PSpec.normalize] using hmab⟩
    have hx : okOrd (PSpec.normalize (.interval [xa, xb])) :=
      ⟨rfl, by simpa [PSpec.normalize] using hxab⟩
    refine ⟨uniformQ la lb (u 0), uniformQ sa sb (u 1), uniformQ ma mb (u 2),
      uniformQ xa xb (u 3), ?_,
      (uniformQ_mem hlab (hu 0).1 (hu 0).2).1, (uniformQ_mem hlab (hu 0).1 (hu 0).2).2,
      (uniformQ_mem hsab (hu 1).1 (hu 1).2).1, (uniformQ_mem hsab (hu 1).1 (hu 1).2).2,
      (uniformQ_mem hmab (hu 2).1 (hu 2).2).1, (uniformQ_mem hmab (hu 2).1 (hu 2).2).2,
      (uniformQ_mem hxab (hu 3).1 (hu 3).2).1, (uniformQ_mem hxab (hu 3).1 (hu 3).2).2⟩
    simp only [ornshtein_uhlenbeck_uniform_parameters_fn]
    rw [if_pos hl, if_pos hs, if_pos hm, if_pos hx]
    rfl
  · intro lc sc mc xc u hlc hsc
    have hl : okPos (PSpec.normalize (.scalar lc)) :=
      ⟨rfl, by simpa [PSpec.normalize] using hlc, by simp [PSpec.normalize]⟩
    have hs : okNonneg (PSpec.normalize (.scalar sc)) :=
      ⟨rfl, by simpa [PSpec.normalize] using hsc, by simp [PSpec.normalize]⟩
    have hm : okOrd (PSpec.normalize (.scalar mc)) := ⟨rfl, le_refl _⟩
    have hx : okOrd (PSpec.normalize (.scalar xc)) := ⟨rfl, le_refl _⟩
    simp only [ornshtein_uhlenbeck_uniform_parameters_fn]
    rw [if_pos hl, if_pos hs, if_pos hm, if_pos hx]
    simp [PSpec.normalize, uniformQ_self]

theorem C8_uniform_sampler_bounds_witness :
    (0 : ℚ) < 1 ∧ (0 : ℚ) ≤ 2 ∧
    ornshtein_uhlenbeck_uniform_parameters_fn (.scalar 3) (.scalar 1) (.scalar 2)
        (some (.scalar 5)) (fun _ => 0) = (Except.ok (1, 2, 3, 5), 4) :=
  ⟨by norm_num, by norm_num,
   C8_uniform_sampler_bounds.2.2.2 1 2 3 5 (fun _ => 0) (by norm_num) (by norm_num)⟩

lemma ouTraj_sigma_zero_closed (mu l x0 dt : ℝ) (ns : ℕ → ℝ) (i : ℕ) :
    ouTraj mu l 0 x0 dt ns i = mu + (x0 - mu) * Real.exp (-l * dt) ^ i := by
  induction i with
  | zero => simp [ouTraj]
  | succ n ih => simp only [ouTraj, ouStep, ih]; ring

/-- C9: for `num_points = 0`, `ornshtein_uhlenbeck_process_fn` allocates
`np.zeros(0)` and then performs the out-of-bounds seed write `x[0] = x0`, so
the call fails (raises `IndexError`, modelled as `none`) for every `x0` and
every other parameter value. -/
theorem C9_ou_zero_points_fails (mu l sigma x0 dt : ℝ) (ns : ℕ → ℝ) :
    ornshtein_uhlenbeck_process_fn 0 mu l sigma x0 dt ns = none := rfl

/-- C6: for `num_points >= 1` the OU generator returns the length-`num_points`
trajectory with `x[0] = x0` and the documented recurrence
`x[i] = x[i-1]*exp(-l*dt) + mu*(1-exp(-l*dt)) + sigma*sqrt((1-exp(-2*l*dt))/(2*l))*N(0,1)`
consuming one fresh normal draw per step; with `sigma = 0` the trajectory is
deterministic (independent of the random stream), equals the closed form
`mu + (x0-mu)*exp(-l*dt)^i`, and that closed form converges to `mu`. -/
theorem C6_ou_recurrence_and_convergence (n : ℕ) (hn : 1 ≤ n) (mu l sigma x0 dt : ℝ)
    (hl : 0 < l) (hdt : 0 < dt) (ns : ℕ → ℝ) :
    ornshtein_uhlenbeck_process_fn n mu l sigma x0 dt ns
        = some ((List.range n).map (ouTraj mu l sigma x0 dt ns)) ∧
    ((List.range n).map (ouTraj mu l sigma x0 dt ns)).length = n ∧
    ouTraj mu l sigma x0 dt ns 0 = x0 ∧
    (∀ i : ℕ, ouTraj mu l sigma x0 dt ns (i + 1)
        = ouTraj mu l sigma x0 dt ns i * Real.exp (-l * dt)
          + mu * (1 - Real.exp (-l * dt))
          + sigma * Real.sqrt ((1 - Real.exp (-2 * l * dt)) / (2 * l)) * ns i) ∧
    (sigma = 0 →
      (∀ (ns' : ℕ → ℝ) (i : ℕ),
        ouTraj mu l sigma x0 dt ns' i = ouTraj mu l sigma x0 dt ns i) ∧
      (∀ i : ℕ, ouTraj mu l sigma x0 dt ns i = mu + (x0 - mu) * Real.exp (-l * dt) ^ i)) ∧
    Filter.Tendsto (fun i : ℕ => mu + (x0 - mu) * Real.exp (-l * dt) ^ i)
      Filter.atTop (nhds mu) := by
  refine ⟨?_, by simp, rfl, fun i => rfl, ?_, ?_⟩
  · simp only [ornshtein_uhlenbeck_process_fn]
    rw [if_neg (by omega)]
  · intro hs
    subst hs
    exact ⟨fun ns' i => by
        rw [ouTraj_sigma_zero_closed, ouTraj_sigma_zero_closed],
      ouTraj_sigma_zero_closed mu l x0 dt ns⟩
  · have hE0 : (0 : ℝ) ≤ Real.exp (-l * dt) := (Real.exp_pos _).le
    have hE1 : Real.exp (-l * dt) < 1 := by
      rw [Real.exp_lt_one_iff]
      nlinarith
    have h0 : Filter.Tendsto (fun i : ℕ => Real.exp (-l * dt) ^ i) Filter.atTop (nhds 0) :=
      tendsto_pow_atTop_nhds_zero_of_lt_one hE0 hE1
    have h1 := (h0.const_mul (x0 - mu)).const_add mu
    simpa using h1

theorem C6_ou_recurrence_and_convergence_witness :
    (1 : ℕ) ≤ 1 ∧ (0 : ℝ) < 1 ∧
    (ornshtein_uhlenbeck_process_fn 1 5 1 0 0 1 (fun _ => 0)
        = some ((List.range 1).map (ouTraj 5 1 0 0 1 (fun _ => 0))) ∧
      ((List.range 1).map (ouTraj 5 1 0 0 1 (fun _ => 0))).length = 1 ∧
      ouTraj 5 1 0 0 1 (fun _ => 0) 0 = 0 ∧
      (∀ i : ℕ, ouTraj 5 1 0 0 1 (fun _ => 0) (i + 1)
          = ouTraj 5 1 0 0 1 (fun _ => 0) i * Real.exp (-1 * 1)
            + 5 * (1 - Real.exp (-1 * 1))
            + 0 * Real.sqrt ((1 - Real.exp (-2 * 1 * 1)) / (2 * 1)) * (fun _ : ℕ => (0:ℝ)) i) ∧
      ((0 : ℝ) = 0 →
        (∀ (ns' : ℕ → ℝ) (i : ℕ),
          ouTraj 5 1 0 0 1 ns' i = ouTraj 5 1 0 0 1 (fun _ => 0) i) ∧
        (∀ i : ℕ, ouTraj 5 1 0 0 1 (fun _ => 0) i
            = 5 + ((0:ℝ) - 5) * Real.exp (-1 * 1) ^ i)) ∧
      Filter.Tendsto (fun i : ℕ => 5 + ((0:ℝ) - 5) * Real.exp (-1 * 1) ^ i)
        Filter.atTop (nhds 5)) :=
  ⟨le_refl 1, by norm_num,
   C6_ou_recurrence_and_convergence 1 (le_refl 1) 5 1 0 0 1 (by norm_num) (by norm_num)
     (fun _ => 0)⟩

lemma getD_map_range (f : ℕ → ℝ) {n t : ℕ} (ht : t < n) :
    ((List.range n).map f).getD t 0 = f t := by
  simp [List.getD_eq_getElem?_getD, List.getElem?_map, List.getElem?_range ht]

lemma hSpread_nonneg (p : CWParams) (z1 z2 : ℝ) : 0 ≤ hSpread p z1 z2 :=
  le_trans (Real.sqrt_nonneg _) (le_max_left _ _)

lemma hSpread_ge_mean1 (p : CWParams) (z1 z2 : ℝ) : p.spread_mean_1 ≤ hSpread p z1 z2 :=
  le_max_right _ _

lemma cwStep_projections (p : CWParams) (r : RandState) (i : ℕ) (st : CWState) :
    (cwStep p r i st).low1 = (cwStep p r i st).mid1
        - hSpread p (r.normal (6 * i + 2)) (r.normal (6 * i + 3)) / 2 ∧
    (cwStep p r i st).high1 = (cwStep p r i st).mid1
        + hSpread p (r.normal (6 * i + 2)) (r.normal (6 * i + 3)) / 2 ∧
    (cwStep p r i st).last1 = (cwStep p r i st).low1
        + r.unif (2 * i) * ((cwStep p r i st).high1 - (cwStep p r i st).low1) ∧
    (cwStep p r i st).low2 = (cwStep p r i st).mid2
        - hSpread p (r.normal (6 * i + 4)) (r.normal (6 * i + 5)) / 2 ∧
    (cwStep p r i st).high2 = (cwStep p r i st).mid2
        + hSpread p (r.normal (6 * i + 4)) (r.normal (6 * i + 5)) / 2 ∧
    (cwStep p r i st).last2 = (cwStep p r i st).low2
        + r.unif (2 * i + 1) * ((cwStep p r i st).high2 - (cwStep p r i st).low2) :=
  ⟨rfl, rfl, rfl, rfl, rfl, rfl⟩

lemma cwStep_spread1 (p : CWParams) (r : RandState) (i : ℕ) (st : CWState) :
    (cwStep p r i st).high1 - (cwStep p r i st).low1
      = hSpread p (r.normal (6 * i + 2)) (r.normal (6 * i + 3)) := by
  obtain ⟨h1, h2, -⟩ := cwStep_projections p r i st
  rw [h1, h2]; ring

lemma cwStep_spread2 (p : CWParams) (r : RandState) (i : ℕ) (st : CWState) :
    (cwStep p r i st).high2 - (cwStep p r i st).low2
      = hSpread p (r.normal (6 * i + 4)) (r.normal (6 * i + 5)) := by
  obtain ⟨-, -, -, h1, h2, -⟩ := cwStep_projections p r i st
  rw [h1, h2]; ring

lemma cwStep_ordering (p : CWParams) (r : RandState) (i : ℕ) (st : CWState)
    (hu0 : 0 ≤ r.unif (2 * i)) (hu1 : r.unif (2 * i) < 1)
    (hv0 : 0 ≤ r.unif (2 * i + 1)) (hv1 : r.unif (2 * i + 1) < 1) :
    (cwStep p r i st).low1 ≤ (cwStep p r i st).mid1 ∧
    (cwStep p r i st).mid1 ≤ (cwStep p r i st).high1 ∧
    (cwStep p r i st).low1 ≤ (cwStep p r i st).last1 ∧
    (cwStep p r i st).last1 ≤ (cwStep p r i st).high1 ∧
    (cwStep p r i st).low2 ≤ (cwStep p r i st).mid2 ∧
    (cwStep p r i st).mid2 ≤ (cwStep p r i st).high2 ∧
    (cwStep p r i st).low2 ≤ (cwStep p r i st).last2 ∧
    (cwStep p r i st).last2 ≤ (cwStep p r i st).high2 := by
  obtain ⟨hl1, hh1, hx1, hl2, hh2, hx2⟩ := cwStep_projections p r i st
  have hs1 := hSpread_nonneg p (r.normal (6 * i + 2)) (r.normal (6 * i + 3))
  have hs2 := hSpread_nonneg p (r.normal (6 * i + 4)) (r.normal (6 * i + 5))
  refine ⟨by rw [hl1]; linarith, by rw [hh1]; linarith, ?_, ?_, by rw [hl2]; linarith,
    by rw [hh2]; linarith, ?_, ?_⟩
  · rw [hx1]
    nlinarith [cwStep_spread1 p r i st]
  · rw [hx1, hl1, hh1]
    nlinarith
  · rw [hx2]
    nlinarith [cwStep_spread2 p r i st]
  · rw [hx2, hl2, hh2]
    nlinarith

lemma roundDec_mono (k : ℕ) {x y : ℝ} (h : x ≤ y) : roundDec k x ≤ roundDec k y := by
  unfold roundDec
  have h10 : (0 : ℝ) < 10 ^ k := by positivity
  have hxy : x * 10 ^ k ≤ y * 10 ^ k := by nlinarith
  have hr : round (x * 10 ^ k) ≤ round (y * 10 ^ k) := by
    rw [round_eq, round_eq]
    exact Int.floor_le_floor (by linarith)
  exact div_le_div_of_nonneg_right (by exact_mod_cast hr) h10.le

lemma roundDec_ge (k : ℕ) (x : ℝ) : x - 1 / 2 / 10 ^ k ≤ roundDec k x := by
  unfold roundDec
  have h10 : (0 : ℝ) < 10 ^ k := by positivity
  have hb : |x * 10 ^ k - round (x * 10 ^ k)| ≤ 1 / 2 := abs_sub_round _
  rw [abs_le] at hb
  rw [show x - 1 / 2 / 10 ^ k = (x * 10 ^ k - 1 / 2) / 10 ^ k by field_simp; ring]
  exact div_le_div_of_nonneg_right (by linarith [hb.2]) h10.le

lemma roundDec_le (k : ℕ) (x : ℝ) : roundDec k x ≤ x + 1 / 2 / 10 ^ k := by
  unfold roundDec
  have h10 : (0 : ℝ) < 10 ^ k := by positivity
  have hb : |x * 10 ^ k - round (x * 10 ^ k)| ≤ 1 / 2 := abs_sub_round _
  rw [abs_le] at hb
  rw [show x + 1 / 2 / 10 ^ k = (x * 10 ^ k + 1 / 2) / 10 ^ k by field_simp; ring]
  exact div_le_div_of_nonneg_right (by linarith [hb.1]) h10.le

/-- C1: for `num_points >= 1` (and any random-source state) the coupled-wave
generator returns a `[2, 4, num_points]`-shaped nested array whose field axis
is ordered mid, high, low, last; history index 0 carries the seed values
(`mid = high = low = bias`, `last1 = bias + ou_mu/2`, `last2 = bias - ou_mu/2`)
and is dropped (output time index `t` is history index `t + 1`), and every
element is rounded to `keep_decimals` decimal places. -/
theorem C1_shape_fields_seed_rounding (p : CWParams) (r : RandState) (n : ℕ) (hn : 1 ≤ n) :
    (coupled_wave_pair_generator_fn p r n).length = 2 ∧
    (∀ asset ∈ coupled_wave_pair_generator_fn p r n, asset.length = 4) ∧
    (∀ asset ∈ coupled_wave_pair_generator_fn p r n, ∀ fld ∈ asset, fld.length = n) ∧
    cwTraj p r 0 = cwSeed p ∧
    (cwSeed p).mid1 = p.bias ∧ (cwSeed p).high1 = p.bias ∧ (cwSeed p).low1 = p.bias ∧
    (cwSeed p).last1 = p.bias + p.ou_mu / 2 ∧
    (cwSeed p).mid2 = p.bias ∧ (cwSeed p).high2 = p.bias ∧ (cwSeed p).low2 = p.bias ∧
    (cwSeed p).last2 = p.bias - p.ou_mu / 2 ∧
    (∀ t, t < n →
      (((coupled_wave_pair_generator_fn p r n).getD 0 []).getD 0 []).getD t 0
          = roundDec p.keep_decimals (cwTraj p r (t + 1)).mid1 ∧
      (((coupled_wave_pair_generator_fn p r n).getD 0 []).getD 1 []).getD t 0
          = roundDec p.keep_decimals (cwTraj p r (t + 1)).high1 ∧
      (((coupled_wave_pair_generator_fn p r n).getD 0 []).getD 2 []).getD t 0
          = roundDec p.keep_decimals (cwTraj p r (t + 1)).low1 ∧
      (((coupled_wave_pair_generator_fn p r n).getD 0 []).getD 3 []).getD t 0
          = roundDec p.keep_decimals (cwTraj p r (t + 1)).last1 ∧
      (((coupled_wave_pair_generator_fn p r n).getD 1 []).getD 0 []).getD t 0
          = roundDec p.keep_decimals (cwTraj p r (t + 1)).mid2 ∧
      (((coupled_wave_pair_generator_fn p r n).getD 1 []).getD 1 []).getD t 0
          = roundDec p.keep_decimals (cwTraj p r (t + 1)).high2 ∧
      (((coupled_wave_pair_generator_fn p r n).getD 1 []).getD 2 []).getD t 0
          = roundDec p.keep_decimals (cwTraj p r (t + 1)).low2 ∧
      (((coupled_wave_pair_generator_fn p r n).getD 1 []).getD 3 []).getD t 0
          = roundDec p.keep_decimals (cwTraj p r (t + 1)).last2) := by
  refine ⟨rfl, ?_, ?_, rfl, rfl, rfl, rfl, rfl, rfl, rfl, rfl, rfl, ?_⟩
  · intro asset h
    simp only [coupled_wave_pair_generator_fn, List.mem_cons, List.not_mem_nil,
      or_false] at h
    rcases h with rfl | rfl <;> rfl
  · intro asset h fld hf
    simp only [coupled_wave_pair_generator_fn, List.mem_cons, List.not_mem_nil,
      or_false] at h
    rcases h with rfl | rfl <;>
      (simp only [List.mem_cons, List.not_mem_nil, or_false] at hf
       rcases hf with rfl | rfl | rfl | rfl <;> simp)
  · intro t ht
    refine ⟨?_, ?_, ?_, ?_, ?_, ?_, ?_, ?_⟩ <;>
      (simp only [coupled_wave_pair_generator_fn, List.getD_cons_zero, List.getD_cons_succ]
       exact getD_map_range _ ht)

theorem C1_shape_fields_seed_rounding_witness :
    (1 : ℕ) ≤ 1 ∧
    (coupled_wave_pair_generator_fn ⟨0, 0, 1, 0, 0, 0, 0, 0, 0, 0⟩
        ⟨fun _ => 0, fun _ => 0⟩ 1).length = 2 :=
  ⟨le_refl 1,
   (C1_shape_fields_seed_rounding ⟨0, 0, 1, 0, 0, 0, 0, 0, 0, 0⟩
     ⟨fun _ => 0, fun _ => 0⟩ 1 (le_refl 1)).1⟩

/-- C4 counterexample: `coupled_wave_pair_generator_fn` called with
`num_points = 0` (and perfectly ordinary remaining parameters,
`ou_lambda = 1`) raises nothing: it silently returns the empty
`[2, 4, 0]`-shaped array. -/
theorem C4_counterexample_zero_points_returns_empty :
    coupled_wave_pair_generator_fn ⟨0, 0, 1, 0, 0, 0, 0, 0, 0, 0⟩
        ⟨fun _ => 0, fun _ => 0⟩ 0
      = [[[], [], [], []], [[], [], [], []]] := by
  simp [coupled_wave_pair_generator_fn]

/-- C4 amended: `coupled_wave_pair_generator_fn` performs no parameter
validation at all: for `num_points = 0` it returns the empty
`[2, 4, 0]`-shaped array instead of raising, for every parameter record —
including every `ou_lambda ≤ 0` — and every random-source state. -/
theorem C4_amended_no_validation (p : CWParams) (r : RandState) :
    coupled_wave_pair_generator_fn p r 0 = [[[], [], [], []], [[], [], [], []]] := by
  simp [coupled_wave_pair_generator_fn]

/-- C5: at every step exactly one shared drift value
`drift1 = drift_sigma * N(0,1)` is drawn and applied identically to both
series: `mid1[i] = last1[i-1]*(1+drift1) + d_s/2` and
`mid2[i] = last2[i-1]*(1+drift1) - d_s/2`, where
`d_s = (ou_mu - (last1[i-1]-last2[i-1]))*(1-exp(-ou_lambda)) + ou_sigma*sqrt((1-exp(-2*ou_lambda))/(2*ou_lambda))*N(0,1)`. -/
theorem C5_shared_drift_and_ou_coupling (p : CWParams) (r : RandState) (i : ℕ) :
    ∃ dr d_s : ℝ,
      dr = p.drift_sigma * r.normal (6 * i + 1) ∧
      d_s = (p.ou_mu - ((cwTraj p r i).last1 - (cwTraj p r i).last2))
              * (1 - Real.exp (-p.ou_lambda))
            + p.ou_sigma * Real.sqrt ((1 - Real.exp (-2 * p.ou_lambda)) / (2 * p.ou_lambda))
              * r.normal (6 * i) ∧
      (cwTraj p r (i + 1)).mid1 = (cwTraj p r i).last1 * (1 + dr) + d_s / 2 ∧
      (cwTraj p r (i + 1)).mid2 = (cwTraj p r i).last2 * (1 + dr) - d_s / 2 :=
  ⟨_, _, rfl, rfl, rfl, rfl⟩

/-- C2: for every valid parameter set (`spread_mean_1`, `spread_mean_2`
non-negative) and every random-source state, every time index of the returned
array satisfies `low <= mid <= high` and `low <= last <= high`, elementwise
for both assets. -/
theorem C2_low_mid_high_ordering (p : CWParams) (r : RandState) (n : ℕ)
    (hm1 : 0 ≤ p.spread_mean_1) (hm2 : 0 ≤ p.spread_mean_2)
    (hu : ∀ k, 0 ≤ r.unif k ∧ r.unif k < 1) (t : ℕ) (ht : t < n) :
    (((coupled_wave_pair_generator_fn p r n).getD 0 []).getD 2 []).getD t 0
        ≤ (((coupled_wave_pair_generator_fn p r n).getD 0 []).getD 0 []).getD t 0 ∧
    (((coupled_wave_pair_generator_fn p r n).getD 0 []).getD 0 []).getD t 0
        ≤ (((coupled_wave_pair_generator_fn p r n).getD 0 []).getD 1 []).getD t 0 ∧
    (((coupled_wave_pair_generator_fn p r n).getD 0 []).getD 2 []).getD t 0
        ≤ (((coupled_wave_pair_generator_fn p r n).getD 0 []).getD 3 []).getD t 0 ∧
    (((coupled_wave_pair_generator_fn p r n).getD 0 []).getD 3 []).getD t 0
        ≤ (((coupled_wave_pair_generator_fn p r n).getD 0 []).getD 1 []).getD t 0 ∧
    (((coupled_wave_pair_generator_fn p r n).getD 1 []).getD 2 []).getD t 0
        ≤ (((coupled_wave_pair_generator_fn p r n).getD 1 []).getD 0 []).getD t 0 ∧
    (((coupled_wave_pair_generator_fn p r n).getD 1 []).getD 0 []).getD t 0
        ≤ (((coupled_wave_pair_generator_fn p r n).getD 1 []).getD 1 []).getD t 0 ∧
    (((coupled_wave_pair_generator_fn p r n).getD 1 []).getD 2 []).getD t 0
        ≤ (((coupled_wave_pair_generator_fn p r n).getD 1 []).getD 3 []).getD t 0 ∧
    (((coupled_wave_pair_generator_fn p r n).getD 1 []).getD 3 []).getD t 0
        ≤ (((coupled_wave_pair_generator_fn p r n).getD 1 []).getD 1 []).getD t 0 := by
  obtain ⟨o1, o2, o3, o4, o5, o6, o7, o8⟩ :=
    cwStep_ordering p r t (cwTraj p r t)
      (hu (2 * t)).1 (hu (2 * t)).2 (hu (2 * t + 1)).1 (hu (2 * t + 1)).2
  refine ⟨?_, ?_, ?_, ?_, ?_, ?_, ?_, ?_⟩ <;>
    (simp only [coupled_wave_pair_generator_fn, List.getD_cons_zero, List.getD_cons_succ]
     rw [getD_map_range _ ht, getD_map_range _ ht])
  · exact roundDec_mono _ o1
  · exact roundDec_mono _ o2
  · exact roundDec_mono _ o3
  · exact roundDec_mono _ o4
  · exact roundDec_mono _ o5
  · exact roundDec_mono _ o6
  · exact roundDec_mono _ o7
  · exact roundDec_mono _ o8

theorem C2_low_mid_high_ordering_witness :
    (0 : ℝ) ≤ 0 ∧ (∀ k : ℕ, (0 : ℝ) ≤ (fun _ : ℕ => (0 : ℝ)) k ∧
      (fun _ : ℕ => (0 : ℝ)) k < 1) ∧ (0 : ℕ) < 1 ∧
    (((coupled_wave_pair_generator_fn ⟨0, 0, 1, 0, 0, 0, 0, 0, 0, 0⟩
          ⟨fun _ => 0, fun _ => 0⟩ 1).getD 0 []).getD 2 []).getD 0 0
        ≤ (((coupled_wave_pair_generator_fn ⟨0, 0, 1, 0, 0, 0, 0, 0, 0, 0⟩
          ⟨fun _ => 0, fun _ => 0⟩ 1).getD 0 []).getD 0 []).getD 0 0 :=
  ⟨le_refl 0, fun k => ⟨le_refl 0, by norm_num⟩, by norm_num,
   (C2_low_mid_high_ordering ⟨0, 0, 1, 0, 0, 0, 0, 0, 0, 0⟩ ⟨fun _ => 0, fun _ => 0⟩ 1
     (le_refl 0) (le_refl 0) (fun k => ⟨le_refl 0, by norm_num⟩) 0 (by norm_num)).1⟩

/-- C3 amended: each per-step spread `h` is clipped below at `spread_mean_1`,
so before rounding `high[i] - low[i] >= spread_mean_1` holds for both assets
at every step; on the returned (rounded) array the difference is only
guaranteed to be at least `spread_mean_1 - 10^(-keep_decimals)`, and can drop
below `spread_mean_1` itself. -/
theorem C3_amended_spread_floor_prerounding (p : CWParams) (r : RandState) (n : ℕ)
    (t : ℕ) (ht : t < n) :
    p.spread_mean_1 ≤ (cwTraj p r (t + 1)).high1 - (cwTraj p r (t + 1)).low1 ∧
    p.spread_mean_1 ≤ (cwTraj p r (t + 1)).high2 - (cwTraj p r (t + 1)).low2 ∧
    p.spread_mean_1 - 1 / 10 ^ p.keep_decimals
        ≤ (((coupled_wave_pair_generator_fn p r n).getD 0 []).getD 1 []).getD t 0
          - (((coupled_wave_pair_generator_fn p r n).getD 0 []).getD 2 []).getD t 0 ∧
    p.spread_mean_1 - 1 / 10 ^ p.keep_decimals
        ≤ (((coupled_wave_pair_generator_fn p r n).getD 1 []).getD 1 []).getD t 0
          - (((coupled_wave_pair_generator_fn p r n).getD 1 []).getD 2 []).getD t 0 := by
  have hs1 : p.spread_mean_1 ≤ (cwTraj p r (t + 1)).high1 - (cwTraj p r (t + 1)).low1 := by
    have := cwStep_spread1 p r t (cwTraj p r t)
    calc p.spread_mean_1
        ≤ hSpread p (r.normal (6 * t + 2)) (r.normal (6 * t + 3)) := hSpread_ge_mean1 _ _ _
      _ = (cwTraj p r (t + 1)).high1 - (cwTraj p r (t + 1)).low1 := this.symm
  have hs2 : p.spread_mean_1 ≤ (cwTraj p r (t + 1)).high2 - (cwTraj p r (t + 1)).low2 := by
    have := cwStep_spread2 p r t (cwTraj p r t)
    calc p.spread_mean_1
        ≤ hSpread p (r.normal (6 * t + 4)) (r.normal (6 * t + 5)) := hSpread_ge_mean1 _ _ _
      _ = (cwTraj p r (t + 1)).high2 - (cwTraj p r (t + 1)).low2 := this.symm
  refine ⟨hs1, hs2, ?_, ?_⟩ <;>
    (simp only [coupled_wave_pair_generator_fn, List.getD_cons_zero, List.getD_cons_succ]
     rw [getD_map_range _ ht, getD_map_range _ ht])
  · have hge := roundDec_ge p.keep_decimals (cwTraj p r (t + 1)).high1
    have hle := roundDec_le p.keep_decimals (cwTraj p r (t + 1)).low1
    have hhalf : 1 / 2 / (10 : ℝ) ^ p.keep_decimals + 1 / 2 / 10 ^ p.keep_decimals
        = 1 / 10 ^ p.keep_decimals := by ring
    linarith
  · have hge := roundDec_ge p.keep_decimals (cwTraj p r (t + 1)).high2
    have hle := roundDec_le p.keep_decimals (cwTraj p r (t + 1)).low2
    have hhalf : 1 / 2 / (10 : ℝ) ^ p.keep_decimals + 1 / 2 / 10 ^ p.keep_decimals
        = 1 / 10 ^ p.keep_decimals := by ring
    linarith

theorem C3_amended_spread_floor_prerounding_witness :
    (0 : ℕ) < 1 ∧
    (⟨0, 0, 1, 0, 0, 0, 0, 0, 0, 0⟩ : CWParams).spread_mean_1
      ≤ (cwTraj ⟨0, 0, 1, 0, 0, 0, 0, 0, 0, 0⟩ ⟨fun _ => 0, fun _ => 0⟩ (0 + 1)).high1
        - (cwTraj ⟨0, 0, 1, 0, 0, 0, 0, 0, 0, 0⟩ ⟨fun _ => 0, fun _ => 0⟩ (0 + 1)).low1 :=
  ⟨by norm_num,
   (C3_amended_spread_floor_prerounding ⟨0, 0, 1, 0, 0, 0, 0, 0, 0, 0⟩
     ⟨fun _ => 0, fun _ => 0⟩ 1 0 (by norm_num)).1⟩

/-- C3 counterexample: with `spread_mean_1 = 3/5`, `keep_decimals = 0`, all
noise parameters zero and zero random streams, the single generated step has
(pre-rounding) `high = 3/10` and `low = -3/10`, both of which round to `0`,
so on the returned array `high[0] - low[0] = 0 < 3/5 = spread_mean_1`: the
claimed bound fails after rounding. -/
theorem C3_counterexample_rounding_breaks_floor :
    ¬ ((⟨0, 0, 1, 0, 0, 0, 3 / 5, 0, 0, 0⟩ : CWParams).spread_mean_1
        ≤ (((coupled_wave_pair_generator_fn ⟨0, 0, 1, 0, 0, 0, 3 / 5, 0, 0, 0⟩
              ⟨fun _ => 0, fun _ => 0⟩ 1).getD 0 []).getD 1 []).getD 0 0
          - (((coupled_wave_pair_generator_fn ⟨0, 0, 1, 0, 0, 0, 3 / 5, 0, 0, 0⟩
              ⟨fun _ => 0, fun _ => 0⟩ 1).getD 0 []).getD 2 []).getD 0 0) := by
  intro hcon
  have hhigh : (cwTraj ⟨0, 0, 1, 0, 0, 0, 3 / 5, 0, 0, 0⟩ ⟨fun _ => 0, fun _ => 0⟩ 1).high1
      = 3 / 10 := by
    show (cwStep ⟨0, 0, 1, 0, 0, 0, 3 / 5, 0, 0, 0⟩ ⟨fun _ => 0, fun _ => 0⟩ 0
      (cwSeed ⟨0, 0, 1, 0, 0, 0, 3 / 5, 0, 0, 0⟩)).high1 = 3 / 10
    simp only [cwStep, cwSeed, delta_ou, hSpread]
    norm_num
    rw [show (9 : ℝ) = 3 ^ 2 by norm_num, show (25 : ℝ) = 5 ^ 2 by norm_num,
      Real.sqrt_sq (by norm_num : (0 : ℝ) ≤ 3), Real.sqrt_sq (by norm_num : (0 : ℝ) ≤ 5),
      max_self]
    norm_num
  have hlow : (cwTraj ⟨0, 0, 1, 0, 0, 0, 3 / 5, 0, 0, 0⟩ ⟨fun _ => 0, fun _ => 0⟩ 1).low1
      = -(3 / 10) := by
    show (cwStep ⟨0, 0, 1, 0, 0, 0, 3 / 5, 0, 0, 0⟩ ⟨fun _ => 0, fun _ => 0⟩ 0
      (cwSeed ⟨0, 0, 1, 0, 0, 0, 3 / 5, 0, 0, 0⟩)).low1 = -(3 / 10)
    simp only [cwStep, cwSeed, delta_ou, hSpread]
    norm_num
    rw [show (9 : ℝ) = 3 ^ 2 by norm_num, show (25 : ℝ) = 5 ^ 2 by norm_num,
      Real.sqrt_sq (by norm_num : (0 : ℝ) ≤ 3), Real.sqrt_sq (by norm_num : (0 : ℝ) ≤ 5),
      max_self]
    norm_num
  have rhigh : roundDec 0 (3 / 10 : ℝ) = 0 := by
    unfold roundDec
    norm_num [round_eq, Int.floor_eq_zero_iff, Set.mem_Ico]
  have rlow : roundDec 0 (-(3 / 10) : ℝ) = 0 := by
    unfold roundDec
    norm_num [round_eq, Int.floor_eq_zero_iff, Set.mem_Ico]
  simp only [coupled_wave_pair_generator_fn, List.getD_cons_zero, List.getD_cons_succ] at hcon
  rw [getD_map_range _ (show 0 < 1 by norm_num),
    getD_map_range _ (show 0 < 1 by norm_num)] at hcon
  norm_num [hhigh, hlow, rhigh, rlow] at hcon

end Stochastic
